import Mathlib

/-!
Verification of the chess rules engine found in `chess.js` of the In-Chesst
repository.  The engine keeps an 8x8 grid of optional pieces, a side-to-move
flag, a stack of move records for undo, and a user-visible status message.
The definitions below are a direct shallow embedding of the engine's logic:
`getValidMoves`, `isInCheck`, `wouldBeInCheck`, `isCheckmate`, `makeMove`
and `undoMove` follow the JavaScript methods of the same names line by line,
with the mutable board threaded explicitly.  Rendering, themes and the DOM
layer are outside the engine and are not modelled.
-/

inductive Color where
  | white
  | black
  deriving DecidableEq

inductive PieceType where
  | pawn
  | rook
  | knight
  | bishop
  | queen
  | king
  deriving DecidableEq

structure Piece where
  type : PieceType
  color : Color
  deriving DecidableEq

/-- Squares and move endpoints are row/column pairs; the source uses plain
JavaScript numbers, which we model as integers (offsets can be negative). -/
abbrev Pos := Int × Int

/-- The 8x8 grid of optional pieces (`this.board` in the source). -/
abbrev Board := Fin 8 → Fin 8 → Option Piece

/-- `board[row][col]` for integer indices; out-of-range reads yield `none`.
Every read in the engine is guarded by `isValidPosition` (or, for the pawn
double step, by the start-row test proved in-bounds below). -/
def Board.read (b : Board) (row col : Int) : Option Piece :=
  match row, col with
  | .ofNat r, .ofNat c =>
      if h : r < 8 ∧ c < 8 then b ⟨r, h.1⟩ ⟨c, h.2⟩ else none
  | _, _ => none

/-- `board[row][col] = p` for integer indices; out-of-range writes leave the
board unchanged (the engine only ever writes in-range squares). -/
def Board.write (b : Board) (row col : Int) (p : Option Piece) : Board :=
  fun r c => if (r.val : Int) = row ∧ (c.val : Int) = col then p else b r c

/-- `isValidPosition(row, col)` from the source. -/
def isValidPosition (row col : Int) : Bool :=
  decide (0 ≤ row) && decide (row < 8) && decide (0 ≤ col) && decide (col < 8)

/-- The ternary `color === 'white' ? 'black' : 'white'` used throughout. -/
def opposite : Color → Color
  | .white => .black
  | .black => .white

def colorStr : Color → String
  | .white => "white"
  | .black => "black"

def typeStr : PieceType → String
  | .pawn => "pawn"
  | .rook => "rook"
  | .knight => "knight"
  | .bishop => "bishop"
  | .queen => "queen"
  | .king => "king"

/-- Direction of pawn travel (`color === 'white' ? -1 : 1`). -/
def pawnDirection : Color → Int
  | .white => -1
  | .black => 1

/-- Pawn start row (`color === 'white' ? 6 : 1`). -/
def pawnStartRow : Color → Int
  | .white => 6
  | .black => 1

/-- The diagonal-capture part of `getPawnMoves`. -/
def pawnCaptureMoves (b : Board) (row col : Int) (color : Color) : List Pos :=
  [(-1 : Int), 1].filterMap fun colOffset =>
    let newRow := row + pawnDirection color
    let newCol := col + colOffset
    if isValidPosition newRow newCol then
      match b.read newRow newCol with
      | some targetPiece =>
          if targetPiece.color ≠ color then some (newRow, newCol) else none
      | none => none
    else none

/-- `getPawnMoves(row, col, color)`: single forward step onto an empty square,
double step from the start row, then the diagonal captures. -/
def getPawnMoves (b : Board) (row col : Int) (color : Color) : List Pos :=
  let d := pawnDirection color
  let forwardMoves :=
    if isValidPosition (row + d) col && (b.read (row + d) col).isNone then
      (row + d, col) ::
        (if decide (row = pawnStartRow color) && (b.read (row + 2 * d) col).isNone then
          [(row + 2 * d, col)]
        else [])
    else []
  forwardMoves ++ pawnCaptureMoves b row col color

/-- One sliding ray: the source's `for (let i = 1; i < 8; i++)` loop with its
break-on-first-occupied behaviour, as fuelled recursion. -/
def rayFrom (b : Board) (row col : Int) (color : Color) (dRow dCol : Int) :
    Nat → Int → List Pos
  | 0, _ => []
  | fuel + 1, i =>
    let newRow := row + dRow * i
    let newCol := col + dCol * i
    if isValidPosition newRow newCol then
      match b.read newRow newCol with
      | none => (newRow, newCol) :: rayFrom b row col color dRow dCol fuel (i + 1)
      | some targetPiece =>
          if targetPiece.color ≠ color then [(newRow, newCol)] else []
    else []

def rookDirections : List (Int × Int) := [(0, 1), (0, -1), (1, 0), (-1, 0)]

def bishopDirections : List (Int × Int) := [(1, 1), (1, -1), (-1, 1), (-1, -1)]

def getRookMoves (b : Board) (row col : Int) (color : Color) : List Pos :=
  rookDirections.flatMap fun d => rayFrom b row col color d.1 d.2 7 1

def getBishopMoves (b : Board) (row col : Int) (color : Color) : List Pos :=
  bishopDirections.flatMap fun d => rayFrom b row col color d.1 d.2 7 1

def knightOffsets : List (Int × Int) :=
  [(-2, -1), (-2, 1), (-1, -2), (-1, 2), (1, -2), (1, 2), (2, -1), (2, 1)]

def getKnightMoves (b : Board) (row col : Int) (color : Color) : List Pos :=
  knightOffsets.filterMap fun d =>
    let newRow := row + d.1
    let newCol := col + d.2
    if isValidPosition newRow newCol then
      match b.read newRow newCol with
      | none => some (newRow, newCol)
      | some targetPiece =>
          if targetPiece.color ≠ color then some (newRow, newCol) else none
    else none

def getQueenMoves (b : Board) (row col : Int) (color : Color) : List Pos :=
  getRookMoves b row col color ++ getBishopMoves b row col color

def kingDirections : List (Int × Int) :=
  [(-1, -1), (-1, 0), (-1, 1), (0, -1), (0, 1), (1, -1), (1, 0), (1, 1)]

def getKingMoves (b : Board) (row col : Int) (color : Color) : List Pos :=
  kingDirections.filterMap fun d =>
    let newRow := row + d.1
    let newCol := col + d.2
    if isValidPosition newRow newCol then
      match b.read newRow newCol with
      | none => some (newRow, newCol)
      | some targetPiece =>
          if targetPiece.color ≠ color then some (newRow, newCol) else none
    else none

/-- `getValidMovesWithoutCheckTest(row, col)`: raw per-piece move dispatch,
used by the check detector to avoid mutual recursion with the filter. -/
def getValidMovesWithoutCheckTest (b : Board) (row col : Int) : List Pos :=
  match b.read row col with
  | none => []
  | some piece =>
    match piece.type with
    | .pawn => getPawnMoves b row col piece.color
    | .rook => getRookMoves b row col piece.color
    | .knight => getKnightMoves b row col piece.color
    | .bishop => getBishopMoves b row col piece.color
    | .queen => getQueenMoves b row col piece.color
    | .king => getKingMoves b row col piece.color

/-- The king-locating scan at the top of `isInCheck`: row-major, first hit. -/
def findKing (b : Board) (color : Color) : Option Pos :=
  (List.range 8).findSome? fun (row : Nat) =>
    (List.range 8).findSome? fun (col : Nat) =>
      match b.read (row : Int) (col : Int) with
      | some piece =>
          if piece.type = PieceType.king ∧ piece.color = color then
            some ((row : Int), (col : Int))
          else none
      | none => none

/-- `isInCheck(color)`: locate the king (absent king yields `false`), then
test whether any opposing piece has the king square among its raw moves. -/
def isInCheck (b : Board) (color : Color) : Bool :=
  match findKing b color with
  | none => false
  | some kingPos =>
    let opponent := opposite color
    (List.range 8).any fun (row : Nat) =>
      (List.range 8).any fun (col : Nat) =>
        match b.read (row : Int) (col : Int) with
        | some piece =>
            decide (piece.color = opponent) &&
              (getValidMovesWithoutCheckTest b (row : Int) (col : Int)).any
                fun m => decide (m = kingPos)
        | none => false

/-- `wouldBeInCheck(fromRow, fromCol, toRow, toCol, color)`: simulate the move
on the board, run the check detector, then revert.  The returned pair is the
boolean result plus the board as it stands after the call, so that the
simulate-then-revert frame property can be stated. -/
def wouldBeInCheck (b : Board) (fromRow fromCol toRow toCol : Int)
    (color : Color) : Bool × Board :=
  let piece := b.read fromRow fromCol
  let capturedPiece := b.read toRow toCol
  let simulated := (b.write toRow toCol piece).write fromRow fromCol none
  let inCheck := isInCheck simulated color
  let reverted :=
    (simulated.write fromRow fromCol piece).write toRow toCol capturedPiece
  (inCheck, reverted)

/-- `getValidMoves(row, col)`: raw moves filtered by the king-safety test. -/
def getValidMoves (b : Board) (row col : Int) : List Pos :=
  match b.read row col with
  | none => []
  | some piece =>
    let moves :=
      match piece.type with
      | .pawn => getPawnMoves b row col piece.color
      | .rook => getRookMoves b row col piece.color
      | .knight => getKnightMoves b row col piece.color
      | .bishop => getBishopMoves b row col piece.color
      | .queen => getQueenMoves b row col piece.color
      | .king => getKingMoves b row col piece.color
    moves.filter fun m => !(wouldBeInCheck b row col m.1 m.2 piece.color).1

/-- `isCheckmate(color)`: in check, and no piece of that color has any legal
move. -/
def isCheckmate (b : Board) (color : Color) : Bool :=
  if isInCheck b color = false then false
  else
    ! (List.range 8).any fun (row : Nat) =>
        (List.range 8).any fun (col : Nat) =>
          match b.read (row : Int) (col : Int) with
          | some piece =>
              decide (piece.color = color) &&
                decide (0 < (getValidMoves b (row : Int) (col : Int)).length)
          | none => false

structure MoveRecord where
  fromPos : Pos
  toPos : Pos
  piece : Piece
  capturedPiece : Option Piece
  deriving DecidableEq

/-- The engine state touched by `makeMove` / `undoMove` / `resetGame`:
board, side to move, history stack (most recent record first, matching the
push/pop discipline of the JavaScript array) and the status message. -/
structure GameState where
  board : Board
  currentPlayer : Color
  moveHistory : List MoveRecord
  status : String

/-- The board mutation performed by `makeMove`: relocate the piece, then
replace a pawn landing on row 0 or row 7 with a queen of its own color. -/
def relocate (b : Board) (fromRow fromCol toRow toCol : Int) (piece : Piece) :
    Board :=
  let b1 := (b.write toRow toCol (some piece)).write fromRow fromCol none
  if piece.type = PieceType.pawn ∧ (toRow = 0 ∨ toRow = 7) then
    b1.write toRow toCol (some ⟨PieceType.queen, piece.color⟩)
  else b1

/-- `makeMove(fromRow, fromCol, toRow, toCol)`.  An empty origin square makes
the JavaScript throw on `piece.type`, modelled as `none`.  The transient
promotion status message is always overwritten by the check/checkmate/normal
classification, so only the final message is recorded.  On checkmate the
source returns early and never flips `currentPlayer`. -/
def makeMove (st : GameState) (fromRow fromCol toRow toCol : Int) :
    Option GameState :=
  match st.board.read fromRow fromCol with
  | none => none
  | some piece =>
    let capturedPiece := st.board.read toRow toCol
    let newHistory : List MoveRecord :=
      ⟨(fromRow, fromCol), (toRow, toCol), piece, capturedPiece⟩ ::
        st.moveHistory
    let newBoard := relocate st.board fromRow fromCol toRow toCol piece
    let opponent := opposite st.currentPlayer
    if isInCheck newBoard opponent then
      if isCheckmate newBoard opponent then
        some { board := newBoard, currentPlayer := st.currentPlayer,
               moveHistory := newHistory,
               status := "Checkmate! " ++ colorStr st.currentPlayer ++ " wins!" }
      else
        some { board := newBoard, currentPlayer := opponent,
               moveHistory := newHistory,
               status := colorStr opponent ++ " is in check!" }
    else
      some { board := newBoard, currentPlayer := opponent,
             moveHistory := newHistory,
             status := colorStr st.currentPlayer ++ " moved " ++ typeStr piece.type }

/-- `undoMove()`: with empty history, report and change nothing; otherwise pop
the last record, restore both squares, and flip the side to move back. -/
def undoMove (st : GameState) : GameState :=
  match st.moveHistory with
  | [] => { st with status := "No moves to undo" }
  | lastMove :: rest =>
    { board :=
        (st.board.write lastMove.fromPos.1 lastMove.fromPos.2
            (some lastMove.piece)).write lastMove.toPos.1 lastMove.toPos.2
          lastMove.capturedPiece,
      currentPlayer := opposite st.currentPlayer,
      moveHistory := rest,
      status := "Move undone" }

def backRankType : Nat → PieceType
  | 0 => .rook
  | 1 => .knight
  | 2 => .bishop
  | 3 => .queen
  | 4 => .king
  | 5 => .bishop
  | 6 => .knight
  | _ => .rook

/-- `initializeBoard()`: the standard opening layout. -/
def initializeBoard : Board := fun r c =>
  match r.val with
  | 0 => some ⟨backRankType c.val, .black⟩
  | 1 => some ⟨.pawn, .black⟩
  | 6 => some ⟨.pawn, .white⟩
  | 7 => some ⟨backRankType c.val, .white⟩
  | _ => none

def initialState : GameState :=
  { board := initializeBoard, currentPlayer := .white, moveHistory := [],
    status := "" }

/-- Game states reachable from the initial position by applying moves that
the engine itself reports as legal for the side to move. -/
inductive Reachable : GameState → Prop
  | init : Reachable initialState
  | step (st st' : GameState) (fromRow fromCol toRow toCol : Int)
      (piece : Piece) :
      Reachable st →
      st.board.read fromRow fromCol = some piece →
      piece.color = st.currentPlayer →
      (toRow, toCol) ∈ getValidMoves st.board fromRow fromCol →
      makeMove st fromRow fromCol toRow toCol = some st' →
      Reachable st'

/-! Basic lemmas about board access. -/

lemma Board.read_eq (b : Board) (row col : Nat) (h1 : row < 8) (h2 : col < 8) :
    b.read (row : Int) (col : Int) = b ⟨row, h1⟩ ⟨col, h2⟩ := by
  show (if h : row < 8 ∧ col < 8 then b ⟨row, h.1⟩ ⟨col, h.2⟩ else none) = _
  rw [dif_pos ⟨h1, h2⟩]

lemma Board.read_fin (b : Board) (r c : Fin 8) :
    b.read (r.val : Int) (c.val : Int) = b r c := by
  have h := Board.read_eq b r.val c.val r.isLt c.isLt
  exact h

lemma Board.bounds_of_read_some (b : Board) (row col : Int) (p : Piece)
    (h : b.read row col = some p) :
    0 ≤ row ∧ row < 8 ∧ 0 ≤ col ∧ col < 8 := by
  match row, col with
  | .ofNat r, .ofNat c =>
    have hb : r < 8 ∧ c < 8 := by
      by_contra hc
      have hnone : b.read (.ofNat r) (.ofNat c) = none := by
        show (if h : r < 8 ∧ c < 8 then _ else none) = none
        exact dif_neg hc
      rw [hnone] at h
      exact Option.noConfusion h
    refine ⟨?_, ?_, ?_, ?_⟩
    · show (0 : Int) ≤ (r : Int)
      omega
    · show (r : Int) < 8
      omega
    · show (0 : Int) ≤ (c : Int)
      omega
    · show (c : Int) < 8
      omega
  | .ofNat r, .negSucc c => exact absurd h (by show none ≠ _; simp)
  | .negSucc r, .ofNat c => exact absurd h (by show none ≠ _; simp)
  | .negSucc r, .negSucc c => exact absurd h (by show none ≠ _; simp)

lemma Board.read_write_self (b : Board) (row col : Int) (p : Option Piece)
    (h1 : 0 ≤ row) (h2 : row < 8) (h3 : 0 ≤ col) (h4 : col < 8) :
    (b.write row col p).read row col = p := by
  obtain ⟨r, rfl⟩ : ∃ r : Nat, row = (r : Int) := ⟨row.toNat, by omega⟩
  obtain ⟨c, rfl⟩ : ∃ c : Nat, col = (c : Int) := ⟨col.toNat, by omega⟩
  rw [Board.read_eq _ r c (by omega) (by omega)]
  show (if _ ∧ _ then p else b _ _) = p
  rw [if_pos ⟨rfl, rfl⟩]

lemma opposite_opposite (c : Color) : opposite (opposite c) = c := by
  cases c <;> rfl

lemma option_isSome_getD {α : Type} (o : Option α) (d : α)
    (h : o.isSome = true) : o = some (o.getD d) := by
  cases o
  · exact absurd h (by simp)
  · rfl

/-- C4.  `wouldBeInCheck` reverts its simulation: for every board, every
in-range from/to pair and every color, the board coming out of the call is
square-by-square the board that went in. -/
theorem wouldBeInCheck_preserves_board (b : Board)
    (fromRow fromCol toRow toCol : Int) (color : Color)
    (hf : isValidPosition fromRow fromCol = true)
    (ht : isValidPosition toRow toCol = true) :
    (wouldBeInCheck b fromRow fromCol toRow toCol color).2 = b := by
  funext r c
  show ((((b.write toRow toCol (b.read fromRow fromCol)).write fromRow fromCol
      none).write fromRow fromCol (b.read fromRow fromCol)).write toRow toCol
      (b.read toRow toCol)) r c = b r c
  simp only [Board.write]
  by_cases hA : ((r.val : Int) = toRow ∧ (c.val : Int) = toCol)
  · rw [if_pos hA]
    obtain ⟨h1, h2⟩ := hA
    rw [← h1, ← h2, Board.read_fin]
  · rw [if_neg hA]
    by_cases hB : ((r.val : Int) = fromRow ∧ (c.val : Int) = fromCol)
    · rw [if_pos hB]
      obtain ⟨h1, h2⟩ := hB
      rw [← h1, ← h2, Board.read_fin]
    · rw [if_neg hB, if_neg hB, if_neg hA]

/-- C4 witness: the frame property evaluated at a concrete call. -/
theorem wouldBeInCheck_preserves_board_witness :
    (wouldBeInCheck initializeBoard 6 4 4 4 Color.white).2 = initializeBoard :=
  wouldBeInCheck_preserves_board initializeBoard 6 4 4 4 Color.white
    (by decide) (by decide)

/-- C6.  `undoMove` on an empty history reports the no-history message and
leaves board, side to move and history untouched. -/
theorem undoMove_empty_history (st : GameState) (h : st.moveHistory = []) :
    undoMove st = { st with status := "No moves to undo" } := by
  unfold undoMove
  rw [h]

/-- C6 witness: undo on the freshly initialized game. -/
theorem undoMove_empty_history_witness :
    undoMove initialState = { initialState with status := "No moves to undo" } :=
  undoMove_empty_history initialState rfl

/-- Restoring the two touched squares after `relocate` reproduces the
original board; this is the board half of the undo round trip. -/
lemma relocate_restore (b : Board) (fromRow fromCol toRow toCol : Int)
    (piece : Piece) (hpiece : b.read fromRow fromCol = some piece) :
    ((relocate b fromRow fromCol toRow toCol piece).write fromRow fromCol
        (some piece)).write toRow toCol (b.read toRow toCol) = b := by
  funext r c
  simp only [relocate, Board.write]
  by_cases hA : ((r.val : Int) = toRow ∧ (c.val : Int) = toCol)
  · rw [if_pos hA]
    obtain ⟨h1, h2⟩ := hA
    rw [← h1, ← h2, Board.read_fin]
  · rw [if_neg hA]
    by_cases hB : ((r.val : Int) = fromRow ∧ (c.val : Int) = fromCol)
    · rw [if_pos hB]
      obtain ⟨h1, h2⟩ := hB
      rw [← h1, ← h2, Board.read_fin] at hpiece
      exact hpiece.symm
    · rw [if_neg hB]
      split
      · simp only [Board.write]
        rw [if_neg hA, if_neg hB, if_neg hA]
      · simp only [Board.write]
        rw [if_neg hB, if_neg hA]

/-- Back-rank mate in one: white rooks on (1,0) and (3,3), black king on
(0,7), white to move; 3,3 to 0,3 is a legal mating move. -/
def mateBoard : Board := fun r c =>
  if r.val = 0 ∧ c.val = 7 then some ⟨.king, .black⟩
  else if r.val = 1 ∧ c.val = 0 then some ⟨.rook, .white⟩
  else if r.val = 3 ∧ c.val = 3 then some ⟨.rook, .white⟩
  else none

def mateState : GameState :=
  { board := mateBoard, currentPlayer := .white, moveHistory := [], status := "" }

def mateAfter : GameState := (makeMove mateState 3 3 0 3).getD mateState

/-- C2 counterexample.  In `mateState` the rook move (3,3) to (0,3) is legal
for the side to move (white), yet after `makeMove` the side to move is still
white, not the opposite color: the checkmate early return skips the flip. -/
theorem makeMove_flip_fails_on_checkmate :
    mateState.currentPlayer = Color.white ∧
    ((0 : Int), (3 : Int)) ∈ getValidMoves mateState.board 3 3 ∧
    (makeMove mateState 3 3 0 3).map (fun st => st.currentPlayer) =
      some Color.white ∧
    opposite Color.white = Color.black := by
  refine ⟨rfl, by decide, by decide, rfl⟩

/-- C2 amended.  Every applied move flips the side to move, except a move
whose resulting position is classified checkmate, after which the early
return leaves the side to move unchanged. -/
theorem makeMove_flips_player (st : GameState) (fromRow fromCol toRow toCol : Int)
    (st' : GameState)
    (hmk : makeMove st fromRow fromCol toRow toCol = some st')
    (hnm : isCheckmate st'.board (opposite st.currentPlayer) = false) :
    st'.currentPlayer = opposite st.currentPlayer := by
  cases hpiece : st.board.read fromRow fromCol with
  | none => rw [makeMove, hpiece] at hmk; exact Option.noConfusion hmk
  | some piece =>
    rw [makeMove, hpiece] at hmk
    simp only at hmk
    split at hmk
    · split at hmk
      · exfalso
        injection hmk with h
        subst h
        simp only at hnm
        simp_all
      · injection hmk with h
        subst h
        rfl
    · injection hmk with h
      subst h
      rfl

def e3State : GameState := (makeMove initialState 6 4 5 4).getD initialState

/-- C2 witness: the opening pawn move flips white to black. -/
theorem makeMove_flips_player_witness :
    e3State.currentPlayer = opposite initialState.currentPlayer :=
  makeMove_flips_player initialState 6 4 5 4 e3State
    (option_isSome_getD _ _ (by rfl)) (by rfl)

/-- C1 amended.  For every reachable state and legal move of the side to
move, if applying the move does not produce a checkmate position, then
`undoMove` after `makeMove` restores the board square-by-square, the side to
move, and the entire history stack. -/
theorem makeMove_undoMove_roundTrip (st : GameState) (hreach : Reachable st)
    (fromRow fromCol toRow toCol : Int) (piece : Piece) (st' : GameState)
    (hpiece : st.board.read fromRow fromCol = some piece)
    (hturn : piece.color = st.currentPlayer)
    (hmem : (toRow, toCol) ∈ getValidMoves st.board fromRow fromCol)
    (hmk : makeMove st fromRow fromCol toRow toCol = some st')
    (hnm : isCheckmate st'.board (opposite st.currentPlayer) = false) :
    (undoMove st').board = st.board ∧
    (undoMove st').currentPlayer = st.currentPlayer ∧
    (undoMove st').moveHistory = st.moveHistory := by
  rw [makeMove, hpiece] at hmk
  simp only at hmk
  split at hmk
  · split at hmk
    · exfalso
      injection hmk with h
      subst h
      simp only at hnm
      simp_all
    · injection hmk with h
      subst h
      refine ⟨?_, ?_, ?_⟩
      · simp only [undoMove]
        exact relocate_restore st.board fromRow fromCol toRow toCol piece hpiece
      · simp only [undoMove]
        exact opposite_opposite st.currentPlayer
      · simp only [undoMove]
  · injection hmk with h
    subst h
    refine ⟨?_, ?_, ?_⟩
    · simp only [undoMove]
      exact relocate_restore st.board fromRow fromCol toRow toCol piece hpiece
    · simp only [undoMove]
      exact opposite_opposite st.currentPlayer
    · simp only [undoMove]

/-- C1 witness: apply-then-undo of the opening pawn move restores the
initial state. -/
theorem makeMove_undoMove_roundTrip_witness :
    (undoMove e3State).board = initialState.board ∧
    (undoMove e3State).currentPlayer = initialState.currentPlayer ∧
    (undoMove e3State).moveHistory = initialState.moveHistory :=
  makeMove_undoMove_roundTrip initialState Reachable.init 6 4 5 4
    ⟨.pawn, .white⟩ e3State rfl rfl (by decide)
    (option_isSome_getD _ _ (by rfl)) (by rfl)

def fm1 : GameState := (makeMove initialState 6 5 5 5).getD initialState

def fm2 : GameState := (makeMove fm1 1 4 3 4).getD fm1

def fm3 : GameState := (makeMove fm2 6 6 4 6).getD fm2

/-- The fool's mate position (1. f3 e5 2. g4) is reachable. -/
lemma reachable_fm3 : Reachable fm3 := by
  have e1 : makeMove initialState 6 5 5 5 = some fm1 :=
    option_isSome_getD _ _ (by rfl)
  have r1 : Reachable fm1 :=
    Reachable.step initialState fm1 6 5 5 5 ⟨.pawn, .white⟩ Reachable.init
      rfl rfl (by decide) e1
  have e2 : makeMove fm1 1 4 3 4 = some fm2 :=
    option_isSome_getD _ _ (by rfl)
  have r2 : Reachable fm2 :=
    Reachable.step fm1 fm2 1 4 3 4 ⟨.pawn, .black⟩ r1
      (by rfl) (by rfl) (by decide) e2
  have e3 : makeMove fm2 6 6 4 6 = some fm3 :=
    option_isSome_getD _ _ (by rfl)
  exact Reachable.step fm2 fm3 6 6 4 6 ⟨.pawn, .white⟩ r2
    (by rfl) (by rfl) (by decide) e3

/-- C1 counterexample.  In the reachable fool's mate position, black's legal
queen move (0,3) to (4,7) delivers checkmate; `makeMove` then skips the
player flip, so the immediately following `undoMove` leaves the side to move
at white where it was black before the move: the round-trip law fails. -/
theorem roundTrip_fails_on_checkmate :
    Reachable fm3 ∧
    fm3.currentPlayer = Color.black ∧
    fm3.board.read 0 3 = some ⟨PieceType.queen, Color.black⟩ ∧
    ((4 : Int), (7 : Int)) ∈ getValidMoves fm3.board 0 3 ∧
    (makeMove fm3 0 3 4 7).map (fun st => (undoMove st).currentPlayer) =
      some Color.white := by
  refine ⟨reachable_fm3, by rfl, by rfl, by decide, by decide⟩

/-- The board reached by a successful `makeMove` is exactly `relocate` of the
old board. -/
lemma makeMove_board (st : GameState) (fromRow fromCol toRow toCol : Int)
    (piece : Piece) (st' : GameState)
    (hpiece : st.board.read fromRow fromCol = some piece)
    (hmk : makeMove st fromRow fromCol toRow toCol = some st') :
    st'.board = relocate st.board fromRow fromCol toRow toCol piece := by
  rw [makeMove, hpiece] at hmk
  simp only at hmk
  split at hmk
  · split at hmk
    · injection hmk with h
      subst h
      rfl
    · injection hmk with h
      subst h
      rfl
  · injection hmk with h
    subst h
    rfl

/-- A pawn relocated to row 0 or row 7 leaves a queen of its own color on the
destination square. -/
lemma relocate_promotes (b : Board) (fromRow fromCol toRow toCol : Int)
    (piece : Piece) (hpawn : piece.type = PieceType.pawn)
    (hrow : toRow = 0 ∨ toRow = 7) (h3 : 0 ≤ toCol) (h4 : toCol < 8) :
    (relocate b fromRow fromCol toRow toCol piece).read toRow toCol =
      some ⟨PieceType.queen, piece.color⟩ := by
  unfold relocate
  rw [if_pos ⟨hpawn, hrow⟩]
  exact Board.read_write_self _ toRow toCol _ (by omega) (by omega) h3 h4

/-- C9.  `makeMove` decides promotion by the destination row alone: any pawn
moved to row 0 or row 7 becomes a queen of that pawn's own color, with no
check that the row is the pawn's own farthest rank. -/
theorem makeMove_promotes_by_destination_row (st : GameState)
    (fromRow fromCol toRow toCol : Int) (piece : Piece) (st' : GameState)
    (hpiece : st.board.read fromRow fromCol = some piece)
    (hpawn : piece.type = PieceType.pawn)
    (hrow : toRow = 0 ∨ toRow = 7) (h3 : 0 ≤ toCol) (h4 : toCol < 8)
    (hmk : makeMove st fromRow fromCol toRow toCol = some st') :
    st'.board.read toRow toCol = some ⟨PieceType.queen, piece.color⟩ := by
  rw [makeMove_board st fromRow fromCol toRow toCol piece st' hpiece hmk]
  exact relocate_promotes st.board fromRow fromCol toRow toCol piece hpawn
    hrow h3 h4

def bpawnBoard : Board := fun r c =>
  if r.val = 1 ∧ c.val = 0 then some ⟨.pawn, .black⟩ else none

def bpawnState : GameState :=
  { board := bpawnBoard, currentPlayer := .white, moveHistory := [], status := "" }

def bpawnAfter : GameState := (makeMove bpawnState 1 0 0 0).getD bpawnState

/-- C9 witness: a direct (unvalidated) `makeMove` of a black pawn onto row 0
leaves a black queen there. -/
theorem makeMove_promotes_by_destination_row_witness :
    bpawnAfter.board.read 0 0 = some ⟨PieceType.queen, Color.black⟩ :=
  makeMove_promotes_by_destination_row bpawnState 1 0 0 0 ⟨.pawn, .black⟩
    bpawnAfter rfl rfl (Or.inl rfl) (by decide) (by decide)
    (option_isSome_getD _ _ (by rfl))

/-- C7.  Applying a legal white pawn move from row 1 to row 0 puts a white
queen on the destination square, for any destination column in range. -/
theorem whitePawn_promotion (st : GameState) (fromCol toCol : Int)
    (st' : GameState)
    (hpiece : st.board.read 1 fromCol = some ⟨PieceType.pawn, Color.white⟩)
    (hmem : ((0 : Int), toCol) ∈ getValidMoves st.board 1 fromCol)
    (h3 : 0 ≤ toCol) (h4 : toCol < 8)
    (hmk : makeMove st 1 fromCol 0 toCol = some st') :
    st'.board.read 0 toCol = some ⟨PieceType.queen, Color.white⟩ :=
  makeMove_promotes_by_destination_row st 1 fromCol 0 toCol
    ⟨PieceType.pawn, Color.white⟩ st' hpiece rfl (Or.inl rfl) h3 h4 hmk

def wpawnBoard : Board := fun r c =>
  if r.val = 1 ∧ c.val = 0 then some ⟨.pawn, .white⟩ else none

def wpawnState : GameState :=
  { board := wpawnBoard, currentPlayer := .white, moveHistory := [], status := "" }

def wpawnAfter : GameState := (makeMove wpawnState 1 0 0 0).getD wpawnState

/-- C7 witness: a legal white pawn push from (1,0) to (0,0) promotes. -/
theorem whitePawn_promotion_witness :
    wpawnAfter.board.read 0 0 = some ⟨PieceType.queen, Color.white⟩ :=
  whitePawn_promotion wpawnState 0 0 wpawnAfter rfl (by decide)
    (by decide) (by decide) (option_isSome_getD _ _ (by rfl))

/-- Bounds-instrumented variant of `getPawnMoves`: identical logic, except
that the double-step probe of `board[row + 2*direction][col]` — the one read
in the source that is not guarded by `isValidPosition` — is preceded by an
explicit bounds check, yielding `none` if that read would be out of range. -/
def getPawnMovesChecked (b : Board) (row col : Int) (color : Color) :
    Option (List Pos) :=
  let d := pawnDirection color
  if isValidPosition (row + d) col && (b.read (row + d) col).isNone then
    if row = pawnStartRow color then
      if isValidPosition (row + 2 * d) col then
        some (((row + d, col) ::
            (if (b.read (row + 2 * d) col).isNone then [(row + 2 * d, col)]
            else [])) ++ pawnCaptureMoves b row col color)
      else none
    else some ([(row + d, col)] ++ pawnCaptureMoves b row col color)
  else some ([] ++ pawnCaptureMoves b row col color)

/-- C10.  For in-range inputs the unguarded double-step read never goes out
of bounds: it is reached only when `row` is the color's start row, so the
probed row is 4 (white) or 3 (black), and the instrumented variant always
succeeds and agrees with `getPawnMoves`. -/
theorem getPawnMoves_in_bounds (b : Board) (row col : Int) (color : Color)
    (h1 : 0 ≤ row) (h2 : row < 8) (h3 : 0 ≤ col) (h4 : col < 8) :
    getPawnMovesChecked b row col color = some (getPawnMoves b row col color) := by
  unfold getPawnMovesChecked getPawnMoves
  simp only
  by_cases hfwd : (isValidPosition (row + pawnDirection color) col &&
      (b.read (row + pawnDirection color) col).isNone) = true
  · rw [if_pos hfwd, if_pos hfwd]
    by_cases hstart : row = pawnStartRow color
    · rw [if_pos hstart]
      have hvalid : isValidPosition (row + 2 * pawnDirection color) col = true := by
        cases color <;>
          simp only [pawnStartRow] at hstart <;>
          subst hstart <;>
          simp only [pawnDirection, isValidPosition, Bool.and_eq_true,
            decide_eq_true_eq] <;>
          refine ⟨⟨⟨by omega, by omega⟩, by omega⟩, by omega⟩
      rw [if_pos hvalid]
      simp [hstart]
    · rw [if_neg hstart]
      simp [hstart]
  · rw [if_neg hfwd, if_neg hfwd]

/-- C10 witness: the instrumented pawn generator at a concrete start-row
square. -/
theorem getPawnMoves_in_bounds_witness :
    getPawnMovesChecked initializeBoard 6 4 Color.white =
      some (getPawnMoves initializeBoard 6 4 Color.white) :=
  getPawnMoves_in_bounds initializeBoard 6 4 Color.white (by decide)
    (by decide) (by decide) (by decide)

/-- A board holding exactly one knight of the given color at the given
square and nothing else. -/
def knightOnlyBoard (color : Color) (r c : Fin 8) : Board := fun r' c' =>
  if r' = r ∧ c' = c then some ⟨PieceType.knight, color⟩ else none

/-- The eight knight offsets applied at a square, kept when on the board. -/
def knightTargets (r c : Fin 8) : List Pos :=
  knightOffsets.filterMap fun d =>
    if isValidPosition ((r.val : Int) + d.1) ((c.val : Int) + d.2) then
      some ((r.val : Int) + d.1, (c.val : Int) + d.2)
    else none

/-- C8.  On an otherwise-empty board, `getValidMoves` for a knight of either
color returns exactly the in-bounds subset of its eight offset squares: the
king-safety filter removes nothing because without a king `isInCheck` is
false. -/
theorem knight_moves_on_empty_board : ∀ (r c : Fin 8),
    getValidMoves (knightOnlyBoard Color.white r c) (r.val : Int) (c.val : Int) =
      knightTargets r c ∧
    getValidMoves (knightOnlyBoard Color.black r c) (r.val : Int) (c.val : Int) =
      knightTargets r c := by decide

lemma findKing_none_no_king (b : Board) (color : Color)
    (h : findKing b color = none) :
    ∀ row col : Nat, row < 8 → col < 8 →
      b.read row col ≠ some ⟨PieceType.king, color⟩ := by
  intro row col hr hc hread
  rw [findKing, List.findSome?_eq_none_iff] at h
  have hrow := h row (List.mem_range.mpr hr)
  rw [List.findSome?_eq_none_iff] at hrow
  have hcol := hrow col (List.mem_range.mpr hc)
  rw [hread] at hcol
  simp at hcol

lemma findKing_some_king (b : Board) (color : Color) (kp : Pos)
    (h : findKing b color = some kp) :
    ∃ row col : Nat, row < 8 ∧ col < 8 ∧ kp = ((row : Int), (col : Int)) ∧
      b.read row col = some ⟨PieceType.king, color⟩ := by
  rw [findKing] at h
  obtain ⟨row, hrowmem, hrow⟩ := List.exists_of_findSome?_eq_some h
  obtain ⟨col, hcolmem, hcol⟩ := List.exists_of_findSome?_eq_some hrow
  refine ⟨row, col, List.mem_range.mp hrowmem, List.mem_range.mp hcolmem, ?_⟩
  cases hread : b.read (row : Int) (col : Int) with
  | none => rw [hread] at hcol; simp at hcol
  | some piece =>
    rw [hread] at hcol
    simp only at hcol
    split at hcol
    · rename_i hcond
      injection hcol with h2
      obtain ⟨ht, hco⟩ := hcond
      cases piece with
      | mk t co =>
        simp only at ht hco
        subst ht
        subst hco
        exact ⟨h2.symm, rfl⟩
    · exact absurd hcol (by simp)

theorem isInCheck_characterization (b : Board) (color : Color)
    (huniq : ∀ r1 c1 r2 c2 : Fin 8,
      b r1 c1 = some ⟨PieceType.king, color⟩ →
      b r2 c2 = some ⟨PieceType.king, color⟩ → r1 = r2 ∧ c1 = c2) :
    ((∀ row : Nat, row < 8 → ∀ col : Nat, col < 8 →
        b.read row col ≠ some ⟨PieceType.king, color⟩) →
      isInCheck b color = false) ∧
    (isInCheck b color = true ↔
      ∃ kingRow kingCol : Nat, kingRow < 8 ∧ kingCol < 8 ∧
        b.read kingRow kingCol = some ⟨PieceType.king, color⟩ ∧
        ∃ attRow attCol : Nat, attRow < 8 ∧ attCol < 8 ∧
          ∃ piece : Piece, b.read attRow attCol = some piece ∧
            piece.color = opposite color ∧
            ((kingRow : Int), (kingCol : Int)) ∈
              getValidMovesWithoutCheckTest b attRow attCol) := by
  constructor
  · intro hnone
    cases hfk : findKing b color with
    | none => rw [isInCheck, hfk]
    | some kp =>
      exfalso
      obtain ⟨row, col, hr, hc, hkp, hking⟩ := findKing_some_king b color kp hfk
      exact hnone row hr col hc hking
  · cases hfk : findKing b color with
    | none =>
      rw [isInCheck, hfk]
      simp only
      constructor
      · intro hfalse
        exact absurd hfalse (by simp)
      · rintro ⟨kr, kc, hkr, hkc, hking, -⟩
        exact absurd hking (findKing_none_no_king b color hfk kr kc hkr hkc)
    | some kp =>
      obtain ⟨row0, col0, hr0, hc0, hkp, hking0⟩ := findKing_some_king b color kp hfk
      subst hkp
      rw [isInCheck, hfk]
      simp only
      constructor
      · intro hscan
        rw [List.any_eq_true] at hscan
        obtain ⟨ar, harmem, hscan2⟩ := hscan
        rw [List.any_eq_true] at hscan2
        obtain ⟨ac, hacmem, hinner⟩ := hscan2
        cases hread : b.read (ar : Int) (ac : Int) with
        | none => rw [hread] at hinner; simp at hinner
        | some piece =>
          rw [hread] at hinner
          simp only [Bool.and_eq_true, decide_eq_true_eq, List.any_eq_true] at hinner
          obtain ⟨hpcol, m, hmmem, hmeq⟩ := hinner
          refine ⟨row0, col0, hr0, hc0, hking0, ar, ac,
            List.mem_range.mp harmem, List.mem_range.mp hacmem, piece, hread,
            hpcol, ?_⟩
          rw [← hmeq]
          exact hmmem
      · rintro ⟨kr, kc, hkr, hkc, hking, ar, ac, har, hac, piece, hread, hpcol, hmem⟩
        rw [Board.read_eq b kr kc hkr hkc] at hking
        rw [Board.read_eq b row0 col0 hr0 hc0] at hking0
        obtain ⟨he1, he2⟩ :=
          huniq ⟨kr, hkr⟩ ⟨kc, hkc⟩ ⟨row0, hr0⟩ ⟨col0, hc0⟩ hking hking0
        obtain ⟨he1⟩ : kr = row0 ∧ kc = col0 :=
          ⟨congrArg Fin.val he1, congrArg Fin.val he2⟩
        rename_i he2a
        subst he1
        subst he2a
        rw [List.any_eq_true]
        refine ⟨ar, List.mem_range.mpr har, ?_⟩
        rw [List.any_eq_true]
        refine ⟨ac, List.mem_range.mpr hac, ?_⟩
        rw [hread]
        simp only [Bool.and_eq_true, decide_eq_true_eq, List.any_eq_true]
        exact ⟨hpcol, ((kr : Int), (kc : Int)), hmem, rfl⟩

/-- Black king on (0,7) attacked along the top row by a white rook on
(0,0). -/
def checkBoard : Board := fun r c =>
  if r.val = 0 ∧ c.val = 7 then some ⟨.king, .black⟩
  else if r.val = 0 ∧ c.val = 0 then some ⟨.rook, .white⟩
  else none

theorem isInCheck_characterization_witness :
    ((∀ row : Nat, row < 8 → ∀ col : Nat, col < 8 →
        checkBoard.read row col ≠ some ⟨PieceType.king, Color.black⟩) →
      isInCheck checkBoard Color.black = false) ∧
    (isInCheck checkBoard Color.black = true ↔
      ∃ kingRow kingCol : Nat, kingRow < 8 ∧ kingCol < 8 ∧
        checkBoard.read kingRow kingCol = some ⟨PieceType.king, Color.black⟩ ∧
        ∃ attRow attCol : Nat, attRow < 8 ∧ attCol < 8 ∧
          ∃ piece : Piece, checkBoard.read attRow attCol = some piece ∧
            piece.color = opposite Color.black ∧
            ((kingRow : Int), (kingCol : Int)) ∈
              getValidMovesWithoutCheckTest checkBoard attRow attCol) :=
  isInCheck_characterization checkBoard Color.black (by decide)

lemma checkmateScan_false_iff (b : Board) (color : Color) :
    (((List.range 8).any fun (row : Nat) =>
        (List.range 8).any fun (col : Nat) =>
          match b.read (row : Int) (col : Int) with
          | some piece =>
              decide (piece.color = color) &&
                decide (0 < (getValidMoves b (row : Int) (col : Int)).length)
          | none => false) = false) ↔
    (∀ row : Nat, row < 8 → ∀ col : Nat, col < 8 → ∀ piece : Piece,
      b.read row col = some piece → piece.color = color →
      getValidMoves b row col = []) := by
  rw [List.any_eq_false]
  constructor
  · intro h row hr col hc piece hread hpc
    have h2 := h row (List.mem_range.mpr hr)
    rw [Bool.not_eq_true, List.any_eq_false] at h2
    have h3 := h2 col (List.mem_range.mpr hc)
    rw [Bool.not_eq_true, hread] at h3
    simp only [Bool.and_eq_false_iff, decide_eq_false_iff_not] at h3
    rcases h3 with h3 | h3
    · exact absurd hpc h3
    · rw [List.length_pos] at h3
      rw [not_not] at h3
      exact h3
  · intro h row hrmem
    rw [Bool.not_eq_true, List.any_eq_false]
    intro col hcmem
    rw [Bool.not_eq_true]
    cases hread : b.read (row : Int) (col : Int) with
    | none => rfl
    | some piece =>
      by_cases hpc : piece.color = color
      · have hnil :=
          h row (List.mem_range.mp hrmem) col (List.mem_range.mp hcmem)
            piece hread hpc
        simp [hnil]
      · simp [hpc]

lemma isCheckmate_true_iff (b : Board) (color : Color) :
    isCheckmate b color = true ↔
      (isInCheck b color = true ∧
        ∀ row : Nat, row < 8 → ∀ col : Nat, col < 8 → ∀ piece : Piece,
          b.read row col = some piece → piece.color = color →
          getValidMoves b row col = []) := by
  rw [isCheckmate]
  by_cases hic : isInCheck b color = false
  · rw [if_pos hic]
    simp [hic]
  · rw [if_neg hic]
    have hic' : isInCheck b color = true := by
      revert hic
      cases isInCheck b color <;> simp
    rw [Bool.not_eq_true']
    rw [checkmateScan_false_iff]
    simp [hic']

theorem makeMove_checkmate_iff :
    (∀ (st : GameState) (fromRow fromCol toRow toCol : Int) (st' : GameState),
      makeMove st fromRow fromCol toRow toCol = some st' →
      (st'.status = "Checkmate! " ++ colorStr st.currentPlayer ++ " wins!" ↔
        (isInCheck st'.board (opposite st.currentPlayer) = true ∧
          ∀ row : Nat, row < 8 → ∀ col : Nat, col < 8 → ∀ piece : Piece,
            st'.board.read row col = some piece →
            piece.color = opposite st.currentPlayer →
            getValidMoves st'.board row col = []))) ∧
    (∀ (b : Board) (color : Color),
      isInCheck b color = false → isCheckmate b color = false) := by
  constructor
  · intro st fromRow fromCol toRow toCol st' hmk
    cases hpiece : st.board.read fromRow fromCol with
    | none => rw [makeMove, hpiece] at hmk; exact Option.noConfusion hmk
    | some piece =>
      rw [makeMove, hpiece] at hmk
      simp only at hmk
      split at hmk
      · split at hmk
        · rename_i hchk hmate
          injection hmk with h
          subst h
          constructor
          · intro _
            exact (isCheckmate_true_iff _ _).mp hmate
          · intro _
            rfl
        · rename_i hchk hmate
          injection hmk with h
          subst h
          constructor
          · intro heq
            exfalso
            simp only at heq
            cases hcc : st.currentPlayer
            · rw [hcc] at heq
              exact absurd heq (by decide)
            · rw [hcc] at heq
              exact absurd heq (by decide)
          · rintro ⟨h1, h2⟩
            exact absurd ((isCheckmate_true_iff _ _).mpr ⟨h1, h2⟩) hmate
      · rename_i hchk
        injection hmk with h
        subst h
        constructor
        · intro heq
          exfalso
          simp only at heq
          cases hcc : st.currentPlayer <;> cases htp : piece.type <;>
            rw [hcc, htp] at heq <;> exact absurd heq (by decide)
        · rintro ⟨h1, -⟩
          exact absurd h1 hchk
  · intro b color h
    rw [isCheckmate, if_pos h]

/-- C3 witness: the classification instantiated at the back-rank mate, and
the early-false clause of `isCheckmate` at a position not in check. -/
theorem makeMove_checkmate_iff_witness :
    (mateAfter.status =
        "Checkmate! " ++ colorStr mateState.currentPlayer ++ " wins!" ↔
      (isInCheck mateAfter.board (opposite mateState.currentPlayer) = true ∧
        ∀ row : Nat, row < 8 → ∀ col : Nat, col < 8 → ∀ piece : Piece,
          mateAfter.board.read row col = some piece →
          piece.color = opposite mateState.currentPlayer →
          getValidMoves mateAfter.board row col = [])) ∧
    isCheckmate checkBoard Color.white = false :=
  ⟨makeMove_checkmate_iff.1 mateState 3 3 0 3 mateAfter
      (option_isSome_getD _ _ (by rfl)),
    makeMove_checkmate_iff.2 checkBoard Color.white (by rfl)⟩
